import Mathlib

set_option maxHeartbeats 1000000

namespace DrivePropertyChanger

/-- MIME type marking an entry as a folder in the remote store
(`application/vnd.google-apps.folder` in `src/index.ts`). -/
def folderMime : String := "application/vnd.google-apps.folder"

/-- Commands the core can issue to the remote store.  The store's API surface
also offers destructive commands (delete, update); they are part of the command
vocabulary so that "the core never issues them" is expressible. -/
inductive Cmd where
  | listChildren (folderId : String) (pageIdx : Nat)
  | getOwners (fileId : String)
  | createFolder (name : String) (parentId : String)
  | copyItem (fileId : String) (name : String) (parentId : String)
  | deleteItem (fileId : String)
  | updateItem (fileId : String)
deriving Repr, DecidableEq

/-- Fatal errors thrown by the core (uncaught exceptions in `src/index.ts`). -/
inductive Err where
  | listFailed (folderId : String) (pageIdx : Nat)
  | createFailed (name : String) (parentId : String)
  | getOwnersFailed (fileId : String)
  | noRootOwner
deriving Repr, DecidableEq

/-- Console output of the core, abstracted to the messages the spec cares
about: per-file copy success and failure (both logged in `copyFile`), the two
startup messages, the final success message, and the top-level error report. -/
inductive LogMsg where
  | copiedFile (name : String)
  | copyError (name : String)
  | rootOwner (email : String)
  | searching (email : String)
  | success
  | fatal (e : Err)
deriving Repr, DecidableEq

/-- Result of running a piece of the core: the sequence of store commands
issued (in order), the log messages emitted, the updated fresh-id counter, and
`some e` when the piece ended in an uncaught exception `e`. -/
structure Res where
  trace : List Cmd
  logs : List LogMsg
  cnt : Nat
  err : Option Err
deriving Repr, DecidableEq

/-- The empty effect. -/
def Res.done (cnt : Nat) : Res := ⟨[], [], cnt, none⟩

/-- Sequencing with exception propagation: when `r` ended in an uncaught
exception, the continuation never runs (the exception aborts the caller). -/
def Res.bind (r : Res) (k : Nat → Res) : Res :=
  match r.err with
  | some _ => r
  | none =>
    let s := k r.cnt
    ⟨r.trace ++ s.trace, r.logs ++ s.logs, s.cnt, s.err⟩

/-- Failure oracle for the store: which requests throw. -/
structure Env where
  listFails : String → Nat → Bool
  createFails : String → String → Bool
  copyFails : String → Bool
  getOwnersFails : String → Bool

mutual
/-- A snapshot of a store entry: id, display name, MIME type, owner e-mail
addresses, and (for folders) its children as the store would page them. -/
inductive Node where
  | mk (id name mimeType : String) (owners : List String) (pages : Pages)
/-- The paged child listing of a folder: each page is the `files` array of one
`drive.files.list` response; an empty `Pages` means the single response with an
empty `files` array and no `nextPageToken`. -/
inductive Pages where
  | nil
  | cons (page : Items) (rest : Pages)
/-- The entries of one page, in page order. -/
inductive Items where
  | nil
  | cons (node : Node) (rest : Items)
end

def Node.id : Node → String
  | .mk i _ _ _ _ => i

def Node.name : Node → String
  | .mk _ n _ _ _ => n

def Node.mimeType : Node → String
  | .mk _ _ m _ _ => m

def Node.owners : Node → List String
  | .mk _ _ _ o _ => o

def Node.pages : Node → Pages
  | .mk _ _ _ _ p => p

/-- `file.mimeType === 'application/vnd.google-apps.folder'`. -/
def Node.isFolder (n : Node) : Bool := n.mimeType == folderMime

def Pages.isNil : Pages → Bool
  | .nil => true
  | .cons _ _ => false

/-- The ownership match of `processFolder`:
`file.owners.some(owner => owner.emailAddress === targetUserEmail)` —
exact, case-sensitive string comparison of e-mail addresses. -/
def isOwnedByTarget (owners : List String) (target : String) : Bool :=
  owners.any (fun o => o == target)

/-- Ids the store assigns to folders created by `drive.files.create`,
drawn from a fresh supply threaded through the run. -/
def freshId (cnt : Nat) : String := "created-" ++ toString cnt

/-- `copyFile` of `src/index.ts`: issues `drive.files.copy` inside a
`try`/`catch`; on failure it logs the error with the file name and returns
normally — the exception never escapes `copyFile`. -/
def copyFileM (env : Env) (fileId : String) (parentId : String)
    (fileName : String) (cnt : Nat) : Res :=
  if env.copyFails fileId then
    ⟨[Cmd.copyItem fileId fileName parentId], [LogMsg.copyError fileName], cnt, none⟩
  else
    ⟨[Cmd.copyItem fileId fileName parentId], [LogMsg.copiedFile fileName], cnt, none⟩

mutual

/-- The `do`/`while (pageToken)` pagination loop of `processFolder`, entered at
page index `idx`: it always issues at least one list request, processes the
page's items in order, and requests the next page only while a continuation
token remains.  A failing list request is an uncaught exception. -/
def processFolderM (env : Env) (folderId : String) (pages : Pages)
    (target root : String) (cnt idx : Nat) : Res :=
  match pages with
  | .nil =>
      if env.listFails folderId idx then
        ⟨[Cmd.listChildren folderId idx], [], cnt, some (Err.listFailed folderId idx)⟩
      else
        ⟨[Cmd.listChildren folderId idx], [], cnt, none⟩
  | .cons p rest =>
      if env.listFails folderId idx then
        ⟨[Cmd.listChildren folderId idx], [], cnt, some (Err.listFailed folderId idx)⟩
      else
        let r := Res.bind (processItems env folderId p target root cnt) (fun c =>
          if rest.isNil then Res.done c
          else processFolderM env folderId rest target root c (idx + 1))
        ⟨Cmd.listChildren folderId idx :: r.trace, r.logs, r.cnt, r.err⟩

/-- The `for (const file of files)` loop body of `processFolder`, folded over
the entries of one page. -/
def processItems (env : Env) (folderId : String) (items : Items)
    (target root : String) (cnt : Nat) : Res :=
  match items with
  | .nil => Res.done cnt
  | .cons n rest =>
      Res.bind (processEntry env folderId n target root cnt) (fun c =>
        processItems env folderId rest target root c)

/-- Processing of one child entry in `processFolder`: if the target owns it,
replicate it (folders: `drive.files.create` — NOT wrapped in `try`/`catch` —
then `copyFolderContents` into the new folder; files: `copyFile` into the
walked folder); then, whenever the child is a folder, recurse into it. -/
def processEntry (env : Env) (folderId : String) (n : Node)
    (target root : String) (cnt : Nat) : Res :=
  match n with
  | .mk nid nname nmime nowners npages =>
      let repl : Res :=
        if isOwnedByTarget nowners target then
          if nmime == folderMime then
            if env.createFails nname folderId then
              ⟨[Cmd.createFolder nname folderId], [], cnt,
                some (Err.createFailed nname folderId)⟩
            else
              let r := copyContents env nid npages (freshId cnt) target root (cnt + 1) 0
              ⟨Cmd.createFolder nname folderId :: r.trace, r.logs, r.cnt, r.err⟩
          else
            copyFileM env nid folderId nname cnt
        else Res.done cnt
      Res.bind repl (fun c =>
        if nmime == folderMime then
          processFolderM env nid npages target root c 0
        else Res.done c)

/-- The pagination loop of `copyFolderContents`, listing the children of
`srcId` and copying each into `destId`. -/
def copyContents (env : Env) (srcId : String) (pages : Pages) (destId : String)
    (target root : String) (cnt idx : Nat) : Res :=
  match pages with
  | .nil =>
      if env.listFails srcId idx then
        ⟨[Cmd.listChildren srcId idx], [], cnt, some (Err.listFailed srcId idx)⟩
      else
        ⟨[Cmd.listChildren srcId idx], [], cnt, none⟩
  | .cons p rest =>
      if env.listFails srcId idx then
        ⟨[Cmd.listChildren srcId idx], [], cnt, some (Err.listFailed srcId idx)⟩
      else
        let r := Res.bind (copyItems env p destId target root cnt) (fun c =>
          if rest.isNil then Res.done c
          else copyContents env srcId rest destId target root c (idx + 1))
        ⟨Cmd.listChildren srcId idx :: r.trace, r.logs, r.cnt, r.err⟩

/-- The `for (const file of files)` loop body of `copyFolderContents`, folded
over the entries of one page. -/
def copyItems (env : Env) (items : Items) (destId : String)
    (target root : String) (cnt : Nat) : Res :=
  match items with
  | .nil => Res.done cnt
  | .cons n rest =>
      Res.bind (copyEntry env n destId target root cnt) (fun c =>
        copyItems env rest destId target root c)

/-- Copying of one child in `copyFolderContents`: there is no ownership test —
folders are recreated under the destination (`drive.files.create`, NOT wrapped
in `try`/`catch`) and recursed into; every other entry is copied into the
destination by `copyFile`. -/
def copyEntry (env : Env) (n : Node) (destId : String)
    (target root : String) (cnt : Nat) : Res :=
  match n with
  | .mk nid nname nmime _ npages =>
      if nmime == folderMime then
        if env.createFails nname destId then
          ⟨[Cmd.createFolder nname destId], [], cnt,
            some (Err.createFailed nname destId)⟩
        else
          let r := copyContents env nid npages (freshId cnt) target root (cnt + 1) 0
          ⟨Cmd.createFolder nname destId :: r.trace, r.logs, r.cnt, r.err⟩
      else
        copyFileM env nid destId nname cnt

end

/-- The operator-supplied root folder, as the store would report it: its id,
its owner list (`drive.files.get` with `fields: owners`), and its paged
children. -/
structure RootFolder where
  id : String
  owners : List String
  pages : Pages

/-- The body of `main`'s `try` block, after input gathering: fetch the root
folder's owners, throw when the list is empty, record the first owner as
`rootOwnerEmail`, walk the tree, and report success. -/
def mainBody (env : Env) (root : RootFolder) (target : String) : Res :=
  Res.bind (if env.getOwnersFails root.id then
      ⟨[Cmd.getOwners root.id], [], 0, some (Err.getOwnersFailed root.id)⟩
    else
      ⟨[Cmd.getOwners root.id], [], 0, none⟩) (fun c =>
    match root.owners with
    | [] => ⟨[], [], c, some Err.noRootOwner⟩
    | o :: _ =>
        Res.bind ⟨[], [LogMsg.rootOwner o, LogMsg.searching target], c, none⟩ (fun c2 =>
          Res.bind (processFolderM env root.id root.pages target o c2 0) (fun c3 =>
            ⟨[], [LogMsg.success], c3, none⟩)))

/-- `main` of `src/index.ts`: the `try` body, with the top-level `catch` that
logs any fatal error (`console.error('Error:', error)`) and returns normally. -/
def mainM (env : Env) (root : RootFolder) (target : String) : Res :=
  let r := mainBody env root target
  match r.err with
  | none => r
  | some e => ⟨r.trace, r.logs ++ [LogMsg.fatal e], r.cnt, none⟩

/-- Number of pages in a child listing. -/
def pagesLength : Pages → Nat
  | .nil => 0
  | .cons _ rest => pagesLength rest + 1

/-- Number of list requests the pagination loop makes for this child listing:
one per page, and always at least one (the `do`/`while` body runs once even
when the folder is empty). -/
def numPages : Pages → Nat
  | .nil => 1
  | .cons _ rest => pagesLength rest + 1

mutual
/-- Number of entries in a node's subtree, the node itself included,
regardless of ownership.  Only folder-typed entries have children in the
store's data model, so only their listings are counted. -/
def sizeNode : Node → Nat
  | .mk _ _ m _ pages => 1 + (if m == folderMime then sizePages pages else 0)

/-- Number of entries in a paged listing, recursively. -/
def sizePages : Pages → Nat
  | .nil => 0
  | .cons p rest => sizeItems p + sizePages rest

/-- Number of entries in one page, recursively. -/
def sizeItems : Items → Nat
  | .nil => 0
  | .cons n rest => sizeNode n + sizeItems rest
end

mutual
/-- All entry ids occurring in a node's subtree, the node itself included. -/
def idsNode : Node → List String
  | .mk i _ _ _ pages => i :: idsPages pages

/-- All entry ids occurring in a paged listing, recursively. -/
def idsPages : Pages → List String
  | .nil => []
  | .cons p rest => idsItems p ++ idsPages rest

/-- All entry ids occurring in one page, recursively. -/
def idsItems : Items → List String
  | .nil => []
  | .cons n rest => idsNode n ++ idsItems rest
end

mutual
/-- The same subtree with every owner list emptied. -/
def stripNode : Node → Node
  | .mk i n m _ pages => .mk i n m [] (stripPages pages)

/-- `stripNode` mapped over a paged listing. -/
def stripPages : Pages → Pages
  | .nil => .nil
  | .cons p rest => .cons (stripItems p) (stripPages rest)

/-- `stripNode` mapped over one page. -/
def stripItems : Items → Items
  | .nil => .nil
  | .cons n rest => .cons (stripNode n) (stripItems rest)
end

/-- Commands that bring a new entry into existence. -/
def Cmd.isCreation : Cmd → Bool
  | .createFolder _ _ => true
  | .copyItem _ _ _ => true
  | _ => false

/-- Commands that either read the store or create a new entry — everything
except the destructive part of the store's API. -/
def Cmd.isReadOrCreate : Cmd → Bool
  | .listChildren _ _ => true
  | .getOwners _ => true
  | .createFolder _ _ => true
  | .copyItem _ _ _ => true
  | .deleteItem _ => false
  | .updateItem _ => false

/-- How many entries a command sequence creates. -/
def countCreations (t : List Cmd) : Nat := (t.filter Cmd.isCreation).length

/-- Recognizes list requests addressed to the folder `fid`. -/
def isListOf (fid : String) : Cmd → Bool
  | .listChildren g _ => g == fid
  | _ => false

/-- An environment in which no store request fails. -/
structure Env.NoFail (env : Env) : Prop where
  list : ∀ f i, env.listFails f i = false
  create : ∀ n p, env.createFails n p = false
  copy : ∀ f, env.copyFails f = false
  get : ∀ i, env.getOwnersFails i = false

/-- The environment in which every store request succeeds. -/
def envOk : Env := ⟨fun _ _ => false, fun _ _ => false, fun _ => false, fun _ => false⟩

theorem envOk_noFail : envOk.NoFail :=
  ⟨fun _ _ => rfl, fun _ _ => rfl, fun _ => rfl, fun _ => rfl⟩

/-- The replication step of `processFolder` for one owned child, in isolation:
lines 91–111 of `src/index.ts` (the body of `if (isOwnedByTarget)`). -/
def replicateStep (env : Env) (folderId : String) (n : Node)
    (target root : String) (cnt : Nat) : Res :=
  if isOwnedByTarget n.owners target then
    if n.mimeType == folderMime then
      if env.createFails n.name folderId then
        ⟨[Cmd.createFolder n.name folderId], [], cnt,
          some (Err.createFailed n.name folderId)⟩
      else
        let r := copyContents env n.id n.pages (freshId cnt) target root (cnt + 1) 0
        ⟨Cmd.createFolder n.name folderId :: r.trace, r.logs, r.cnt, r.err⟩
    else
      copyFileM env n.id folderId n.name cnt
  else Res.done cnt

theorem Res.bind_of_err_none (r : Res) (k : Nat → Res) (h : r.err = none) :
    r.bind k = ⟨r.trace ++ (k r.cnt).trace, r.logs ++ (k r.cnt).logs,
      (k r.cnt).cnt, (k r.cnt).err⟩ := by
  unfold Res.bind
  rw [h]

theorem Res.bind_of_err_some (r : Res) (k : Nat → Res) (e : Err)
    (h : r.err = some e) : r.bind k = r := by
  unfold Res.bind
  rw [h]

/-- `processEntry` factors as the replication step followed (when the child is
a folder and the replication step did not throw) by the recursive descent. -/
theorem processEntry_eq_bind (env : Env) (folderId : String) (n : Node)
    (target root : String) (cnt : Nat) :
    processEntry env folderId n target root cnt =
      Res.bind (replicateStep env folderId n target root cnt) (fun c =>
        if n.mimeType == folderMime then
          processFolderM env n.id n.pages target root c 0
        else Res.done c) := by
  cases n
  rfl

mutual

/-- In a failure-free environment the walk never throws. -/
theorem processFolderM_err (env : Env) (hnf : env.NoFail) (folderId : String)
    (pages : Pages) (target root : String) (cnt idx : Nat) :
    (processFolderM env folderId pages target root cnt idx).err = none := by
  cases pages with
  | nil => simp [processFolderM, hnf.list]
  | cons p rest =>
      simp only [processFolderM, hnf.list, Bool.false_eq_true, if_false]
      rw [Res.bind_of_err_none _ _ (processItems_err env hnf folderId p target root cnt)]
      cases rest with
      | nil => simp [Pages.isNil, Res.done]
      | cons q qs =>
          simpa [Pages.isNil] using
            processFolderM_err env hnf folderId (Pages.cons q qs) target root
              (processItems env folderId p target root cnt).cnt (idx + 1)

/-- In a failure-free environment processing one page never throws. -/
theorem processItems_err (env : Env) (hnf : env.NoFail) (folderId : String)
    (items : Items) (target root : String) (cnt : Nat) :
    (processItems env folderId items target root cnt).err = none := by
  cases items with
  | nil => simp [processItems, Res.done]
  | cons n rest =>
      simp only [processItems]
      rw [Res.bind_of_err_none _ _ (processEntry_err env hnf folderId n target root cnt)]
      exact processItems_err env hnf folderId rest target root _

/-- In a failure-free environment processing one child never throws. -/
theorem processEntry_err (env : Env) (hnf : env.NoFail) (folderId : String)
    (n : Node) (target root : String) (cnt : Nat) :
    (processEntry env folderId n target root cnt).err = none := by
  cases n with
  | mk nid nname nmime nowners npages =>
      simp only [processEntry]
      have hrepl : (if isOwnedByTarget nowners target then
          if nmime == folderMime then
            if env.createFails nname folderId then
              (⟨[Cmd.createFolder nname folderId], [], cnt,
                some (Err.createFailed nname folderId)⟩ : Res)
            else
              let r := copyContents env nid npages (freshId cnt) target root (cnt + 1) 0
              ⟨Cmd.createFolder nname folderId :: r.trace, r.logs, r.cnt, r.err⟩
          else
            copyFileM env nid folderId nname cnt
        else Res.done cnt).err = none := by
        cases hown : isOwnedByTarget nowners target with
        | false => simp [Res.done]
        | true =>
            cases hm : nmime == folderMime with
            | false => simp [copyFileM]; cases env.copyFails nid <;> simp
            | true =>
                simp only [hnf.create, Bool.false_eq_true, if_false, if_true]
                exact copyContents_err env hnf nid npages (freshId cnt) target root (cnt + 1) 0
      rw [Res.bind_of_err_none _ _ hrepl]
      cases hm : nmime == folderMime with
      | false => simp [Res.done]
      | true => simp only [if_true]; exact processFolderM_err env hnf nid npages target root _ 0

/-- In a failure-free environment the subtree copy never throws. -/
theorem copyContents_err (env : Env) (hnf : env.NoFail) (srcId : String)
    (pages : Pages) (destId target root : String) (cnt idx : Nat) :
    (copyContents env srcId pages destId target root cnt idx).err = none := by
  cases pages with
  | nil => simp [copyContents, hnf.list]
  | cons p rest =>
      simp only [copyContents, hnf.list, Bool.false_eq_true, if_false]
      rw [Res.bind_of_err_none _ _ (copyItems_err env hnf p destId target root cnt)]
      cases rest with
      | nil => simp [Pages.isNil, Res.done]
      | cons q qs =>
          simpa [Pages.isNil] using
            copyContents_err env hnf srcId (Pages.cons q qs) destId target root
              (copyItems env p destId target root cnt).cnt (idx + 1)

/-- In a failure-free environment copying one page never throws. -/
theorem copyItems_err (env : Env) (hnf : env.NoFail) (items : Items)
    (destId target root : String) (cnt : Nat) :
    (copyItems env items destId target root cnt).err = none := by
  cases items with
  | nil => simp [copyItems, Res.done]
  | cons n rest =>
      simp only [copyItems]
      rw [Res.bind_of_err_none _ _ (copyEntry_err env hnf n destId target root cnt)]
      exact copyItems_err env hnf rest destId target root _

/-- In a failure-free environment copying one child never throws. -/
theorem copyEntry_err (env : Env) (hnf : env.NoFail) (n : Node)
    (destId target root : String) (cnt : Nat) :
    (copyEntry env n destId target root cnt).err = none := by
  cases n with
  | mk nid nname nmime nowners npages =>
      simp only [copyEntry]
      cases hm : nmime == folderMime with
      | false => simp [copyFileM]; cases env.copyFails nid <;> simp
      | true =>
          simp only [hnf.create, Bool.false_eq_true, if_false, if_true]
          exact copyContents_err env hnf nid npages (freshId cnt) target root (cnt + 1) 0

end

theorem countCreations_append (a b : List Cmd) :
    countCreations (a ++ b) = countCreations a + countCreations b := by
  simp [countCreations, List.filter_append]

theorem countCreations_nil : countCreations [] = 0 := rfl

mutual

/-- In a failure-free environment the subtree copy issues exactly one
creation command per entry of the source subtree, ownership notwithstanding. -/
theorem copyContents_count (env : Env) (hnf : env.NoFail) (srcId : String)
    (pages : Pages) (destId target root : String) (cnt idx : Nat) :
    countCreations (copyContents env srcId pages destId target root cnt idx).trace =
      sizePages pages := by
  cases pages with
  | nil => simp [copyContents, hnf.list, countCreations, Cmd.isCreation, sizePages]
  | cons p rest =>
      simp only [copyContents, hnf.list, Bool.false_eq_true, if_false]
      rw [Res.bind_of_err_none _ _ (copyItems_err env hnf p destId target root cnt)]
      have h1 := copyItems_count env hnf p destId target root cnt
      cases rest with
      | nil =>
          simp [Pages.isNil, Res.done, countCreations, Cmd.isCreation, List.filter_append,
            sizePages, sizeItems] at h1 ⊢
          omega
      | cons q qs =>
          have h2 := copyContents_count env hnf srcId (Pages.cons q qs) destId target root
            (copyItems env p destId target root cnt).cnt (idx + 1)
          simp [Pages.isNil, countCreations, Cmd.isCreation, List.filter_append,
            sizePages] at h1 h2 ⊢
          omega

/-- In a failure-free environment copying one page issues exactly one creation
command per entry of the page's subtrees. -/
theorem copyItems_count (env : Env) (hnf : env.NoFail) (items : Items)
    (destId target root : String) (cnt : Nat) :
    countCreations (copyItems env items destId target root cnt).trace =
      sizeItems items := by
  cases items with
  | nil => simp [copyItems, Res.done, countCreations, sizeItems]
  | cons n rest =>
      simp only [copyItems]
      rw [Res.bind_of_err_none _ _ (copyEntry_err env hnf n destId target root cnt)]
      have h1 := copyEntry_count env hnf n destId target root cnt
      have h2 := copyItems_count env hnf rest destId target root
        (copyEntry env n destId target root cnt).cnt
      simp [countCreations, List.filter_append, sizeItems] at h1 h2 ⊢
      omega

/-- In a failure-free environment copying one child issues exactly one
creation command per entry of the child's subtree. -/
theorem copyEntry_count (env : Env) (hnf : env.NoFail) (n : Node)
    (destId target root : String) (cnt : Nat) :
    countCreations (copyEntry env n destId target root cnt).trace =
      sizeNode n := by
  cases n with
  | mk nid nname nmime nowners npages =>
      cases hm : nmime == folderMime with
      | false =>
          simp [copyEntry, hm, copyFileM, sizeNode]
          cases env.copyFails nid <;>
            simp [countCreations, Cmd.isCreation]
      | true =>
          simp only [copyEntry, hm, hnf.create, Bool.false_eq_true, if_false, if_true]
          have h1 := copyContents_count env hnf nid npages (freshId cnt) target root
            (cnt + 1) 0
          simp [countCreations, Cmd.isCreation, sizeNode, hm] at h1 ⊢
          omega

end

theorem stripPages_isNil (ps : Pages) : (stripPages ps).isNil = ps.isNil := by
  cases ps <;> rfl

mutual

/-- The subtree copy is blind to owner lists: emptying every owner list in the
source subtree changes nothing about its behavior. -/
theorem copyContents_strip (env : Env) (srcId : String) (pages : Pages)
    (destId target root : String) (cnt idx : Nat) :
    copyContents env srcId (stripPages pages) destId target root cnt idx =
      copyContents env srcId pages destId target root cnt idx := by
  cases pages with
  | nil => rfl
  | cons p rest =>
      simp only [stripPages, copyContents]
      rw [copyItems_strip env p destId target root cnt]
      have hk : ∀ c : Nat, (if (stripPages rest).isNil then Res.done c
          else copyContents env srcId (stripPages rest) destId target root c (idx + 1)) =
          (if rest.isNil then Res.done c
          else copyContents env srcId rest destId target root c (idx + 1)) := by
        intro c
        rw [stripPages_isNil]
        cases hr : rest.isNil with
        | true => simp
        | false => simp only [Bool.false_eq_true, if_false]
                   exact copyContents_strip env srcId rest destId target root c (idx + 1)
      rw [funext hk]

/-- `copyItems` is blind to owner lists. -/
theorem copyItems_strip (env : Env) (items : Items)
    (destId target root : String) (cnt : Nat) :
    copyItems env (stripItems items) destId target root cnt =
      copyItems env items destId target root cnt := by
  cases items with
  | nil => rfl
  | cons n rest =>
      simp only [stripItems, copyItems]
      rw [copyEntry_strip env n destId target root cnt]
      have hk : ∀ c : Nat,
          copyItems env (stripItems rest) destId target root c =
          copyItems env rest destId target root c := fun c =>
        copyItems_strip env rest destId target root c
      rw [funext hk]

/-- `copyEntry` is blind to owner lists. -/
theorem copyEntry_strip (env : Env) (n : Node)
    (destId target root : String) (cnt : Nat) :
    copyEntry env (stripNode n) destId target root cnt =
      copyEntry env n destId target root cnt := by
  cases n with
  | mk nid nname nmime nowners npages =>
      simp only [stripNode, copyEntry]
      rw [copyContents_strip env nid npages (freshId cnt) target root (cnt + 1) 0]

end

mutual

/-- The walk is oblivious to the `rootOwnerEmail` argument: it is threaded
through every recursive call but never read. -/
theorem processFolderM_root (env : Env) (folderId : String) (pages : Pages)
    (target r1 r2 : String) (cnt idx : Nat) :
    processFolderM env folderId pages target r1 cnt idx =
      processFolderM env folderId pages target r2 cnt idx := by
  cases pages with
  | nil => rfl
  | cons p rest =>
      simp only [processFolderM]
      rw [processItems_root env folderId p target r1 r2 cnt]
      have hk : ∀ c : Nat, (if rest.isNil then Res.done c
          else processFolderM env folderId rest target r1 c (idx + 1)) =
          (if rest.isNil then Res.done c
          else processFolderM env folderId rest target r2 c (idx + 1)) := by
        intro c
        cases hr : rest.isNil with
        | true => simp
        | false => simp only [Bool.false_eq_true, if_false]
                   exact processFolderM_root env folderId rest target r1 r2 c (idx + 1)
      rw [funext hk]

/-- `processItems` is oblivious to the `rootOwnerEmail` argument. -/
theorem processItems_root (env : Env) (folderId : String) (items : Items)
    (target r1 r2 : String) (cnt : Nat) :
    processItems env folderId items target r1 cnt =
      processItems env folderId items target r2 cnt := by
  cases items with
  | nil => rfl
  | cons n rest =>
      simp only [processItems]
      rw [processEntry_root env folderId n target r1 r2 cnt]
      have hk : ∀ c : Nat,
          processItems env folderId rest target r1 c =
          processItems env folderId rest target r2 c := fun c =>
        processItems_root env folderId rest target r1 r2 c
      rw [funext hk]

/-- `processEntry` is oblivious to the `rootOwnerEmail` argument. -/
theorem processEntry_root (env : Env) (folderId : String) (n : Node)
    (target r1 r2 : String) (cnt : Nat) :
    processEntry env folderId n target r1 cnt =
      processEntry env folderId n target r2 cnt := by
  cases n with
  | mk nid nname nmime nowners npages =>
      simp only [processEntry]
      rw [copyContents_root env nid npages (freshId cnt) target r1 r2 (cnt + 1) 0]
      have hk : ∀ c : Nat, (if nmime == folderMime then
          processFolderM env nid npages target r1 c 0 else Res.done c) =
          (if nmime == folderMime then
          processFolderM env nid npages target r2 c 0 else Res.done c) := by
        intro c
        cases hm : nmime == folderMime with
        | true => simp only [if_true]
                  exact processFolderM_root env nid npages target r1 r2 c 0
        | false => simp
      rw [funext hk]

/-- `copyFolderContents` is oblivious to the `rootOwnerEmail` argument. -/
theorem copyContents_root (env : Env) (srcId : String) (pages : Pages)
    (destId target r1 r2 : String) (cnt idx : Nat) :
    copyContents env srcId pages destId target r1 cnt idx =
      copyContents env srcId pages destId target r2 cnt idx := by
  cases pages with
  | nil => rfl
  | cons p rest =>
      simp only [copyContents]
      rw [copyItems_root env p destId target r1 r2 cnt]
      have hk : ∀ c : Nat, (if rest.isNil then Res.done c
          else copyContents env srcId rest destId target r1 c (idx + 1)) =
          (if rest.isNil then Res.done c
          else copyContents env srcId rest destId target r2 c (idx + 1)) := by
        intro c
        cases hr : rest.isNil with
        | true => simp
        | false => simp only [Bool.false_eq_true, if_false]
                   exact copyContents_root env srcId rest destId target r1 r2 c (idx + 1)
      rw [funext hk]

/-- `copyItems` is oblivious to the `rootOwnerEmail` argument. -/
theorem copyItems_root (env : Env) (items : Items)
    (destId target r1 r2 : String) (cnt : Nat) :
    copyItems env items destId target r1 cnt =
      copyItems env items destId target r2 cnt := by
  cases items with
  | nil => rfl
  | cons n rest =>
      simp only [copyItems]
      rw [copyEntry_root env n destId target r1 r2 cnt]
      have hk : ∀ c : Nat,
          copyItems env rest destId target r1 c =
          copyItems env rest destId target r2 c := fun c =>
        copyItems_root env rest destId target r1 r2 c
      rw [funext hk]

/-- `copyEntry` is oblivious to the `rootOwnerEmail` argument. -/
theorem copyEntry_root (env : Env) (n : Node)
    (destId target r1 r2 : String) (cnt : Nat) :
    copyEntry env n destId target r1 cnt =
      copyEntry env n destId target r2 cnt := by
  cases n with
  | mk nid nname nmime nowners npages =>
      simp only [copyEntry]
      rw [copyContents_root env nid npages (freshId cnt) target r1 r2 (cnt + 1) 0]

end

theorem Res.bind_frame (r : Res) (k : Nat → Res) (p : Cmd → Bool) (m : LogMsg)
    (hr : r.trace.all p = true ∧ m ∉ r.logs)
    (hk : (k r.cnt).trace.all p = true ∧ m ∉ (k r.cnt).logs) :
    ((r.bind k).trace.all p = true) ∧ m ∉ (r.bind k).logs := by
  cases h : r.err with
  | some e => rw [Res.bind_of_err_some _ _ _ h]; exact hr
  | none =>
      rw [Res.bind_of_err_none _ _ h]
      refine ⟨by simp [List.all_append, hr.1, hk.1], ?_⟩
      intro hmem
      rcases List.mem_append.mp hmem with hmem | hmem
      · exact hr.2 hmem
      · exact hk.2 hmem

mutual

/-- In every environment the walk issues only read and creation commands and
never emits the final success message itself. -/
theorem processFolderM_frame (env : Env) (folderId : String) (pages : Pages)
    (target root : String) (cnt idx : Nat) :
    ((processFolderM env folderId pages target root cnt idx).trace.all
      Cmd.isReadOrCreate = true) ∧
    LogMsg.success ∉ (processFolderM env folderId pages target root cnt idx).logs := by
  cases pages with
  | nil =>
      cases h : env.listFails folderId idx <;>
        simp [processFolderM, h, Cmd.isReadOrCreate]
  | cons p rest =>
      cases h : env.listFails folderId idx with
      | true => simp [processFolderM, h, Cmd.isReadOrCreate]
      | false =>
          simp only [processFolderM, h, Bool.false_eq_true, if_false]
          have hb := Res.bind_frame (processItems env folderId p target root cnt)
            (fun c => if rest.isNil then Res.done c
              else processFolderM env folderId rest target root c (idx + 1))
            Cmd.isReadOrCreate LogMsg.success
            (processItems_frame env folderId p target root cnt)
            (by
              cases hr : rest.isNil with
              | true => simp [Res.done]
              | false =>
                  simp only [Bool.false_eq_true, if_false]
                  exact processFolderM_frame env folderId rest target root _ (idx + 1))
          exact ⟨by simp [Cmd.isReadOrCreate, hb.1], hb.2⟩

/-- In every environment processing one page issues only read and creation
commands and never emits the final success message. -/
theorem processItems_frame (env : Env) (folderId : String) (items : Items)
    (target root : String) (cnt : Nat) :
    ((processItems env folderId items target root cnt).trace.all
      Cmd.isReadOrCreate = true) ∧
    LogMsg.success ∉ (processItems env folderId items target root cnt).logs := by
  cases items with
  | nil => simp [processItems, Res.done]
  | cons n rest =>
      simp only [processItems]
      exact Res.bind_frame _ _ _ _
        (processEntry_frame env folderId n target root cnt)
        (processItems_frame env folderId rest target root _)

/-- In every environment processing one child issues only read and creation
commands and never emits the final success message. -/
theorem processEntry_frame (env : Env) (folderId : String) (n : Node)
    (target root : String) (cnt : Nat) :
    ((processEntry env folderId n target root cnt).trace.all
      Cmd.isReadOrCreate = true) ∧
    LogMsg.success ∉ (processEntry env folderId n target root cnt).logs := by
  cases n with
  | mk nid nname nmime nowners npages =>
      simp only [processEntry]
      refine Res.bind_frame _ _ _ _ ?_ ?_
      · cases hown : isOwnedByTarget nowners target with
        | false => simp [Res.done]
        | true =>
            cases hm : nmime == folderMime with
            | false =>
                simp only [if_true, Bool.false_eq_true, if_false]
                cases hc : env.copyFails nid <;>
                  simp [copyFileM, hc, Cmd.isReadOrCreate]
            | true =>
                cases hcf : env.createFails nname folderId with
                | true => simp [hcf, Cmd.isReadOrCreate]
                | false =>
                    simp only [if_true, hcf, Bool.false_eq_true, if_false]
                    have hcc := copyContents_frame env nid npages (freshId cnt)
                      target root (cnt + 1) 0
                    exact ⟨by simp [Cmd.isReadOrCreate, hcc.1], by simp [hcc.2]⟩
      · cases hm : nmime == folderMime with
        | false => simp [Res.done]
        | true =>
            simp only [if_true]
            exact processFolderM_frame env nid npages target root _ 0

/-- In every environment the subtree copy issues only read and creation
commands and never emits the final success message. -/
theorem copyContents_frame (env : Env) (srcId : String) (pages : Pages)
    (destId target root : String) (cnt idx : Nat) :
    ((copyContents env srcId pages destId target root cnt idx).trace.all
      Cmd.isReadOrCreate = true) ∧
    LogMsg.success ∉ (copyContents env srcId pages destId target root cnt idx).logs := by
  cases pages with
  | nil =>
      cases h : env.listFails srcId idx <;>
        simp [copyContents, h, Cmd.isReadOrCreate]
  | cons p rest =>
      cases h : env.listFails srcId idx with
      | true => simp [copyContents, h, Cmd.isReadOrCreate]
      | false =>
          simp only [copyContents, h, Bool.false_eq_true, if_false]
          have hb := Res.bind_frame (copyItems env p destId target root cnt)
            (fun c => if rest.isNil then Res.done c
              else copyContents env srcId rest destId target root c (idx + 1))
            Cmd.isReadOrCreate LogMsg.success
            (copyItems_frame env p destId target root cnt)
            (by
              cases hr : rest.isNil with
              | true => simp [Res.done]
              | false =>
                  simp only [Bool.false_eq_true, if_false]
                  exact copyContents_frame env srcId rest destId target root _ (idx + 1))
          exact ⟨by simp [Cmd.isReadOrCreate, hb.1], hb.2⟩

/-- In every environment copying one page issues only read and creation
commands and never emits the final success message. -/
theorem copyItems_frame (env : Env) (items : Items)
    (destId target root : String) (cnt : Nat) :
    ((copyItems env items destId target root cnt).trace.all
      Cmd.isReadOrCreate = true) ∧
    LogMsg.success ∉ (copyItems env items destId target root cnt).logs := by
  cases items with
  | nil => simp [copyItems, Res.done]
  | cons n rest =>
      simp only [copyItems]
      exact Res.bind_frame _ _ _ _
        (copyEntry_frame env n destId target root cnt)
        (copyItems_frame env rest destId target root _)

/-- In every environment copying one child issues only read and creation
commands and never emits the final success message. -/
theorem copyEntry_frame (env : Env) (n : Node)
    (destId target root : String) (cnt : Nat) :
    ((copyEntry env n destId target root cnt).trace.all
      Cmd.isReadOrCreate = true) ∧
    LogMsg.success ∉ (copyEntry env n destId target root cnt).logs := by
  cases n with
  | mk nid nname nmime nowners npages =>
      cases hm : nmime == folderMime with
      | false =>
          simp only [copyEntry, hm, Bool.false_eq_true, if_false]
          cases hc : env.copyFails nid <;>
            simp [copyFileM, hc, Cmd.isReadOrCreate]
      | true =>
          cases hcf : env.createFails nname destId with
          | true => simp [copyEntry, hm, hcf, Cmd.isReadOrCreate]
          | false =>
              simp only [copyEntry, hm, if_true, hcf, Bool.false_eq_true, if_false]
              have hcc := copyContents_frame env nid npages (freshId cnt)
                target root (cnt + 1) 0
              exact ⟨by simp [Cmd.isReadOrCreate, hcc.1], by simp [hcc.2]⟩

end

/-- The `try` body of `main` issues only read and creation commands. -/
theorem mainBody_frame (env : Env) (root : RootFolder) (target : String) :
    (mainBody env root target).trace.all Cmd.isReadOrCreate = true := by
  unfold mainBody
  cases hg : env.getOwnersFails root.id with
  | true => simp [hg, Res.bind, Cmd.isReadOrCreate]
  | false =>
      cases howners : root.owners with
      | nil => simp [hg, howners, Res.bind, Cmd.isReadOrCreate]
      | cons o os =>
          have hwalk := (processFolderM_frame env root.id root.pages target o 0 0).1
          cases hw : (processFolderM env root.id root.pages target o 0 0).err with
          | none =>
              simp [hg, howners, Res.bind, hw, Cmd.isReadOrCreate,
                List.all_eq_true] at hwalk ⊢
              exact hwalk
          | some e =>
              simp [hg, howners, Res.bind, hw, Cmd.isReadOrCreate,
                List.all_eq_true] at hwalk ⊢
              exact hwalk

/-- The whole run, catch included, issues only read and creation commands. -/
theorem mainM_frame (env : Env) (root : RootFolder) (target : String) :
    (mainM env root target).trace.all Cmd.isReadOrCreate = true := by
  have hbody := mainBody_frame env root target
  unfold mainM
  cases h : (mainBody env root target).err with
  | none => simpa [h] using hbody
  | some e => simpa [h] using hbody

/-- In a failure-free environment the replication step never throws. -/
theorem replicateStep_err (env : Env) (hnf : env.NoFail) (folderId : String)
    (n : Node) (target root : String) (cnt : Nat) :
    (replicateStep env folderId n target root cnt).err = none := by
  unfold replicateStep
  cases hown : isOwnedByTarget n.owners target with
  | false => simp [Res.done]
  | true =>
      cases hm : n.mimeType == folderMime with
      | false =>
          simp only [if_true, Bool.false_eq_true, if_false]
          cases hc : env.copyFails n.id <;> simp [copyFileM, hc]
      | true =>
          simp only [if_true, hnf.create, Bool.false_eq_true, if_false]
          exact copyContents_err env hnf n.id n.pages (freshId cnt) target root (cnt + 1) 0

mutual

/-- Pagination discipline of the walk: in a failure-free environment, the list
requests that a walk of the folder `g` addresses to the folder `fid` are, in
trace order, exactly the pages `idx, idx+1, …` up to the last page of the
listing when `g = fid`, and none at all otherwise — provided `fid` is not also
the id of some entry inside the listed subtree. -/
theorem processFolderM_filter (env : Env) (hnf : env.NoFail) (fid g : String)
    (pages : Pages) (target root : String) (cnt idx : Nat)
    (hmem : fid ∉ idsPages pages) :
    (processFolderM env g pages target root cnt idx).trace.filter (isListOf fid) =
      if g = fid then
        (List.range' idx (numPages pages)).map (fun i => Cmd.listChildren fid i)
      else [] := by
  cases pages with
  | nil =>
      simp only [processFolderM, hnf.list, Bool.false_eq_true, if_false]
      by_cases hgf : g = fid
      · subst hgf
        simp [isListOf, numPages, List.range']
      · simp [isListOf, hgf, List.filter_cons, beq_eq_false_iff_ne]
  | cons p rest =>
      have hmem1 : fid ∉ idsItems p := by
        intro h; exact hmem (by simp [idsPages, h])
      have hmem2 : fid ∉ idsPages rest := by
        intro h; exact hmem (by simp [idsPages, h])
      simp only [processFolderM, hnf.list, Bool.false_eq_true, if_false]
      rw [Res.bind_of_err_none _ _ (processItems_err env hnf g p target root cnt)]
      simp only [List.filter_cons, List.filter_append,
        processItems_filter env hnf fid g p target root cnt hmem1]
      cases rest with
      | nil =>
          by_cases hgf : g = fid
          · subst hgf
            simp [isListOf, numPages, Pages.isNil, Res.done, List.range']
          · simp [isListOf, hgf, Pages.isNil, Res.done, beq_eq_false_iff_ne]
      | cons q qs =>
          have hrec := processFolderM_filter env hnf fid g (Pages.cons q qs)
            target root (processItems env g p target root cnt).cnt (idx + 1) hmem2
          by_cases hgf : g = fid
          · subst hgf
            simp [isListOf, Pages.isNil, hrec, numPages, pagesLength,
              List.range'_succ]
          · simp [isListOf, hgf, Pages.isNil, hrec, beq_eq_false_iff_ne]

/-- Processing one page never issues a list request for a folder id that does
not occur in the page's subtrees. -/
theorem processItems_filter (env : Env) (hnf : env.NoFail) (fid g : String)
    (items : Items) (target root : String) (cnt : Nat)
    (hmem : fid ∉ idsItems items) :
    (processItems env g items target root cnt).trace.filter (isListOf fid) = [] := by
  cases items with
  | nil => simp [processItems, Res.done]
  | cons n rest =>
      have hmem1 : fid ∉ idsNode n := by
        intro h; exact hmem (by simp [idsItems, h])
      have hmem2 : fid ∉ idsItems rest := by
        intro h; exact hmem (by simp [idsItems, h])
      simp only [processItems]
      rw [Res.bind_of_err_none _ _ (processEntry_err env hnf g n target root cnt)]
      simp only [List.filter_append,
        processEntry_filter env hnf fid g n target root cnt hmem1,
        processItems_filter env hnf fid g rest target root _ hmem2,
        List.append_nil]

/-- Processing one child never issues a list request for a folder id that does
not occur in the child's subtree. -/
theorem processEntry_filter (env : Env) (hnf : env.NoFail) (fid g : String)
    (n : Node) (target root : String) (cnt : Nat)
    (hmem : fid ∉ idsNode n) :
    (processEntry env g n target root cnt).trace.filter (isListOf fid) = [] := by
  cases n with
  | mk nid nname nmime nowners npages =>
      have hne : nid ≠ fid := by
        intro h; exact hmem (by simp [idsNode, h])
      have hmem2 : fid ∉ idsPages npages := by
        intro h; exact hmem (by simp [idsNode, h])
      rw [processEntry_eq_bind,
        Res.bind_of_err_none _ _ (replicateStep_err env hnf g _ target root cnt)]
      rw [List.filter_append]
      have h1 : (replicateStep env g (Node.mk nid nname nmime nowners npages)
          target root cnt).trace.filter (isListOf fid) = [] := by
        unfold replicateStep
        cases hown : isOwnedByTarget (Node.mk nid nname nmime nowners npages).owners
            target with
        | false => simp [Res.done]
        | true =>
            simp only [if_true]
            cases hm : (Node.mk nid nname nmime nowners npages).mimeType ==
                folderMime with
            | false =>
                simp only [Bool.false_eq_true, if_false]
                cases hc : env.copyFails (Node.mk nid nname nmime nowners npages).id <;>
                  simp [copyFileM, hc, isListOf]
            | true =>
                simp only [if_true, hnf.create, Bool.false_eq_true, if_false]
                have := copyContents_filter env hnf fid
                  (Node.mk nid nname nmime nowners npages).id npages
                  (freshId cnt) target root (cnt + 1) 0 hmem2
                simp only [Node.id, Node.pages] at this ⊢
                simp [List.filter_cons, isListOf, this, hne, if_neg]
      have h2 : ((fun c => if (Node.mk nid nname nmime nowners npages).mimeType ==
            folderMime then
            processFolderM env (Node.mk nid nname nmime nowners npages).id
              (Node.mk nid nname nmime nowners npages).pages target root c 0
          else Res.done c)
          (replicateStep env g (Node.mk nid nname nmime nowners npages)
            target root cnt).cnt).trace.filter (isListOf fid) = [] := by
        cases hm : (Node.mk nid nname nmime nowners npages).mimeType ==
            folderMime with
        | false => simp [hm, Res.done]
        | true =>
            simp only [hm, if_true]
            have := processFolderM_filter env hnf fid
              (Node.mk nid nname nmime nowners npages).id npages target root
              (replicateStep env g (Node.mk nid nname nmime nowners npages)
                target root cnt).cnt 0 hmem2
            simp only [Node.id, Node.pages] at this ⊢
            simp [this, hne, if_neg]
      rw [h1, h2]
      rfl

/-- Pagination discipline of the subtree copy, mirror of the walk's. -/
theorem copyContents_filter (env : Env) (hnf : env.NoFail) (fid src : String)
    (pages : Pages) (destId target root : String) (cnt idx : Nat)
    (hmem : fid ∉ idsPages pages) :
    (copyContents env src pages destId target root cnt idx).trace.filter
        (isListOf fid) =
      if src = fid then
        (List.range' idx (numPages pages)).map (fun i => Cmd.listChildren fid i)
      else [] := by
  cases pages with
  | nil =>
      simp only [copyContents, hnf.list, Bool.false_eq_true, if_false]
      by_cases hgf : src = fid
      · subst hgf
        simp [isListOf, numPages, List.range']
      · simp [isListOf, hgf, List.filter_cons, beq_eq_false_iff_ne]
  | cons p rest =>
      have hmem1 : fid ∉ idsItems p := by
        intro h; exact hmem (by simp [idsPages, h])
      have hmem2 : fid ∉ idsPages rest := by
        intro h; exact hmem (by simp [idsPages, h])
      simp only [copyContents, hnf.list, Bool.false_eq_true, if_false]
      rw [Res.bind_of_err_none _ _ (copyItems_err env hnf p destId target root cnt)]
      simp only [List.filter_cons, List.filter_append,
        copyItems_filter env hnf fid p destId target root cnt hmem1]
      cases rest with
      | nil =>
          by_cases hgf : src = fid
          · subst hgf
            simp [isListOf, numPages, Pages.isNil, Res.done, List.range']
          · simp [isListOf, hgf, Pages.isNil, Res.done, beq_eq_false_iff_ne]
      | cons q qs =>
          have hrec := copyContents_filter env hnf fid src (Pages.cons q qs)
            destId target root (copyItems env p destId target root cnt).cnt
            (idx + 1) hmem2
          by_cases hgf : src = fid
          · subst hgf
            simp [isListOf, Pages.isNil, hrec, numPages, pagesLength,
              List.range'_succ]
          · simp [isListOf, hgf, Pages.isNil, hrec, beq_eq_false_iff_ne]

/-- Copying one page never issues a list request for a folder id that does not
occur in the page's subtrees. -/
theorem copyItems_filter (env : Env) (hnf : env.NoFail) (fid : String)
    (items : Items) (destId target root : String) (cnt : Nat)
    (hmem : fid ∉ idsItems items) :
    (copyItems env items destId target root cnt).trace.filter (isListOf fid) = [] := by
  cases items with
  | nil => simp [copyItems, Res.done]
  | cons n rest =>
      have hmem1 : fid ∉ idsNode n := by
        intro h; exact hmem (by simp [idsItems, h])
      have hmem2 : fid ∉ idsItems rest := by
        intro h; exact hmem (by simp [idsItems, h])
      simp only [copyItems]
      rw [Res.bind_of_err_none _ _ (copyEntry_err env hnf n destId target root cnt)]
      simp only [List.filter_append,
        copyEntry_filter env hnf fid n destId target root cnt hmem1,
        copyItems_filter env hnf fid rest destId target root _ hmem2,
        List.append_nil]

/-- Copying one child never issues a list request for a folder id that does
not occur in the child's subtree. -/
theorem copyEntry_filter (env : Env) (hnf : env.NoFail) (fid : String)
    (n : Node) (destId target root : String) (cnt : Nat)
    (hmem : fid ∉ idsNode n) :
    (copyEntry env n destId target root cnt).trace.filter (isListOf fid) = [] := by
  cases n with
  | mk nid nname nmime nowners npages =>
      have hne : nid ≠ fid := by
        intro h; exact hmem (by simp [idsNode, h])
      have hmem2 : fid ∉ idsPages npages := by
        intro h; exact hmem (by simp [idsNode, h])
      cases hm : nmime == folderMime with
      | false =>
          simp only [copyEntry, hm, Bool.false_eq_true, if_false]
          cases hc : env.copyFails nid <;> simp [copyFileM, hc, isListOf]
      | true =>
          simp only [copyEntry, hm, if_true, hnf.create, Bool.false_eq_true, if_false]
          have := copyContents_filter env hnf fid nid npages (freshId cnt)
            target root (cnt + 1) 0 hmem2
          simp [List.filter_cons, isListOf, this, hne, if_neg]

end

/-- Processing a non-folder child never throws, whatever the environment:
the only store operation it performs is the copy, and `copyFile` catches. -/
theorem processEntry_file_err (env : Env) (folderId : String) (n : Node)
    (target root : String) (cnt : Nat) (hf : n.isFolder = false) :
    (processEntry env folderId n target root cnt).err = none := by
  simp only [Node.isFolder] at hf
  rw [processEntry_eq_bind]
  have hrepl : (replicateStep env folderId n target root cnt).err = none := by
    unfold replicateStep
    cases hown : isOwnedByTarget n.owners target with
    | false => simp [Res.done]
    | true =>
        simp only [if_true, hf, Bool.false_eq_true, if_false]
        cases hc : env.copyFails n.id <;> simp [copyFileM, hc]
  rw [Res.bind_of_err_none _ _ hrepl]
  simp [hf, Res.done]

/-- Outcome of the `try` body of `main`: either it ends cleanly and the
success message was printed, or it ends in a fatal error and the success
message was never printed. -/
theorem mainBody_cases (env : Env) (root : RootFolder) (target : String) :
    ((mainBody env root target).err = none ∧
      LogMsg.success ∈ (mainBody env root target).logs) ∨
    ((∃ e, (mainBody env root target).err = some e) ∧
      LogMsg.success ∉ (mainBody env root target).logs) := by
  unfold mainBody
  cases hg : env.getOwnersFails root.id with
  | true => right; simp [hg, Res.bind]
  | false =>
      cases howners : root.owners with
      | nil => right; simp [hg, howners, Res.bind]
      | cons o os =>
          have hsucc := (processFolderM_frame env root.id root.pages target o 0 0).2
          cases hw : (processFolderM env root.id root.pages target o 0 0).err with
          | none =>
              left
              simp [hg, howners, Res.bind, hw]
          | some e =>
              right
              simp [hg, howners, Res.bind, hw, hsucc]

/-- A file entry for concrete runs. -/
def fileNode (i nm : String) (ow : List String) : Node :=
  Node.mk i nm "text/plain" ow Pages.nil

/-- A folder entry for concrete runs. -/
def folderNode (i nm : String) (ow : List String) (ps : Pages) : Node :=
  Node.mk i nm folderMime ow ps

/-- A single-page child listing. -/
def onePage (its : Items) : Pages := Pages.cons its Pages.nil

/-- `f1`, a file owned by `bob@x.com`. -/
def wFile : Node := fileNode "f1" "f1" ["bob@x.com"]

/-- `A`, a folder owned by `bob@x.com` containing `f1`. -/
def wSub : Node :=
  folderNode "a1" "A" ["bob@x.com"] (onePage (Items.cons wFile Items.nil))

/-- `U`, a folder owned by somebody else. -/
def wOther : Node := folderNode "u1" "U" ["carol@x.com"] Pages.nil

/-- A two-page listing: page 0 holds `A`, page 1 holds `g1`. -/
def pagesTwo : Pages :=
  Pages.cons (Items.cons wSub Items.nil)
    (Pages.cons (Items.cons (fileNode "g1" "g1" ["alice@x.com"]) Items.nil)
      Pages.nil)

/-- An environment in which creating a folder named `A` under `R` fails. -/
def envC4 : Env :=
  ⟨fun _ _ => false, fun nm p => nm == "A" && p == "R", fun _ => false,
    fun _ => false⟩

/-- A page holding the owned folder `A` followed by the owned file `B`. -/
def pagesC4 : Pages :=
  onePage (Items.cons (folderNode "a1" "A" ["bob@x.com"] Pages.nil)
    (Items.cons (fileNode "b1" "B" ["bob@x.com"]) Items.nil))

/-- An environment in which copying the file with id `b1` fails. -/
def envCopyFail : Env :=
  ⟨fun _ _ => false, fun _ _ => false, fun f => f == "b1", fun _ => false⟩

/-- An environment in which listing the children of `R` fails. -/
def envListFail : Env :=
  ⟨fun f _ => f == "R", fun _ _ => false, fun _ => false, fun _ => false⟩

/-- A root folder `R` owned by `alice@x.com` with the two-page listing. -/
def rootW : RootFolder := ⟨"R", ["alice@x.com"], pagesTwo⟩

/-- A root folder `R` with no recorded owners. -/
def rootNoOwner : RootFolder := ⟨"R", [], pagesTwo⟩

/-- C1: for an owned child `n` listed while walking folder `folderId`, in a
failure-free environment: if `n` is a file, the replication step issues
exactly one copy of `n` under its original name with parent `folderId`; if
`n` is a folder, it issues exactly one new folder bearing `n`'s name with
parent `folderId` and then deep-copies `n`'s full contents into that new
folder via the subtree copy, which creates exactly as many entries as `n`'s
subtree holds (files plus folders, recursively, regardless of ownership). -/
theorem claim_C1 (env : Env) (hnf : env.NoFail) (folderId : String) (n : Node)
    (target root : String) (cnt : Nat)
    (hown : isOwnedByTarget n.owners target = true) :
    (n.isFolder = false →
      (replicateStep env folderId n target root cnt).trace =
        [Cmd.copyItem n.id n.name folderId]) ∧
    (n.isFolder = true →
      (replicateStep env folderId n target root cnt).trace =
        Cmd.createFolder n.name folderId ::
          (copyContents env n.id n.pages (freshId cnt) target root (cnt + 1) 0).trace ∧
      countCreations (copyContents env n.id n.pages (freshId cnt) target root
        (cnt + 1) 0).trace = sizePages n.pages) := by
  simp only [Node.isFolder]
  constructor
  · intro hf
    unfold replicateStep
    simp only [Node.isFolder, hown, if_true, hf, Bool.false_eq_true, if_false]
    cases hc : env.copyFails n.id <;> simp [copyFileM, hc]
  · intro hf
    refine ⟨?_, copyContents_count env hnf n.id n.pages (freshId cnt) target root
      (cnt + 1) 0⟩
    unfold replicateStep
    simp [Node.isFolder, hown, hf, hnf.create]

theorem claim_C1_witness :
    isOwnedByTarget wSub.owners "bob@x.com" = true ∧
    (replicateStep envOk "R" wSub "bob@x.com" "alice@x.com" 0).trace =
      Cmd.createFolder wSub.name "R" ::
        (copyContents envOk wSub.id wSub.pages (freshId 0) "bob@x.com"
          "alice@x.com" 1 0).trace ∧
    countCreations (copyContents envOk wSub.id wSub.pages (freshId 0) "bob@x.com"
      "alice@x.com" 1 0).trace = sizePages wSub.pages :=
  ⟨by decide,
    ((claim_C1 envOk envOk_noFail "R" wSub "bob@x.com" "alice@x.com" 0
      (by decide)).2 (by decide)).1,
    ((claim_C1 envOk envOk_noFail "R" wSub "bob@x.com" "alice@x.com" 0
      (by decide)).2 (by decide)).2⟩

/-- C2: whenever the child is a folder and the (possibly trivial) replication
step did not throw, the walk recurses into the child — `processEntry`'s
command sequence is the replication step's followed by the recursive walk of
the child's own listing, whether or not the ownership match fired. -/
theorem claim_C2 (env : Env) (folderId : String) (n : Node)
    (target root : String) (cnt : Nat) (hf : n.isFolder = true)
    (hok : (replicateStep env folderId n target root cnt).err = none) :
    (processEntry env folderId n target root cnt).trace =
      (replicateStep env folderId n target root cnt).trace ++
      (processFolderM env n.id n.pages target root
        (replicateStep env folderId n target root cnt).cnt 0).trace := by
  rw [processEntry_eq_bind, Res.bind_of_err_none _ _ hok]
  simp only [Node.isFolder] at hf
  simp [hf]

theorem claim_C2_witness :
    wOther.isFolder = true ∧
    (replicateStep envOk "R" wOther "bob@x.com" "alice@x.com" 0).err = none ∧
    (processEntry envOk "R" wOther "bob@x.com" "alice@x.com" 0).trace =
      (replicateStep envOk "R" wOther "bob@x.com" "alice@x.com" 0).trace ++
      (processFolderM envOk wOther.id wOther.pages "bob@x.com" "alice@x.com"
        (replicateStep envOk "R" wOther "bob@x.com" "alice@x.com" 0).cnt 0).trace :=
  ⟨by decide, by decide,
    claim_C2 envOk "R" wOther "bob@x.com" "alice@x.com" 0 (by decide) (by decide)⟩

/-- C3: the subtree copy copies every child of the source with no ownership
filter: a folder child is recreated under the destination with the same name
and recursed into, any other child is copied directly into the destination,
and emptying every owner list of the source changes nothing at all. -/
theorem claim_C3 (env : Env) :
    (∀ (n : Node) (destId target root : String) (cnt : Nat),
        n.isFolder = true → env.createFails n.name destId = false →
        (copyEntry env n destId target root cnt).trace =
          Cmd.createFolder n.name destId ::
            (copyContents env n.id n.pages (freshId cnt) target root
              (cnt + 1) 0).trace) ∧
    (∀ (n : Node) (destId target root : String) (cnt : Nat),
        n.isFolder = false →
        (copyEntry env n destId target root cnt).trace =
          [Cmd.copyItem n.id n.name destId]) ∧
    (∀ (srcId : String) (pages : Pages) (destId target root : String)
        (cnt idx : Nat),
        copyContents env srcId (stripPages pages) destId target root cnt idx =
          copyContents env srcId pages destId target root cnt idx) := by
  refine ⟨?_, ?_, fun srcId pages destId target root cnt idx =>
    copyContents_strip env srcId pages destId target root cnt idx⟩
  · intro n destId target root cnt hf hcf
    cases n with
    | mk nid nname nmime nowners npages =>
        simp only [Node.isFolder, Node.mimeType] at hf
        simp only [Node.name, Node.id, Node.pages] at hcf ⊢
        simp [copyEntry, hf, hcf]
  · intro n destId target root cnt hf
    cases n with
    | mk nid nname nmime nowners npages =>
        simp only [Node.isFolder, Node.mimeType] at hf
        simp only [Node.name, Node.id]
        simp only [copyEntry, hf, Bool.false_eq_true, if_false]
        cases hc : env.copyFails nid <;> simp [copyFileM, hc]

theorem claim_C3_witness :
    wSub.isFolder = true ∧ envOk.createFails wSub.name "D" = false ∧
    (copyEntry envOk wSub "D" "bob@x.com" "alice@x.com" 0).trace =
      Cmd.createFolder wSub.name "D" ::
        (copyContents envOk wSub.id wSub.pages (freshId 0) "bob@x.com"
          "alice@x.com" 1 0).trace ∧
    copyContents envOk "a1" (stripPages wSub.pages) "D" "bob@x.com"
        "alice@x.com" 0 0 =
      copyContents envOk "a1" wSub.pages "D" "bob@x.com" "alice@x.com" 0 0 :=
  ⟨by decide, by decide,
    (claim_C3 envOk).1 wSub "D" "bob@x.com" "alice@x.com" 0 (by decide) (by decide),
    (claim_C3 envOk).2.2 "a1" wSub.pages "D" "bob@x.com" "alice@x.com" 0 0⟩

/-- C4 counterexample: the claim says a failure creating a folder is caught at
the operation and traversal proceeds to the next sibling.  In the environment
where creating folder `A` under `R` fails, walking `R` (children: owned folder
`A`, then owned file `B`) ends in an uncaught `createFailed` error and the
sibling `B` is never copied — although the same walk in a failure-free
environment does copy `B`. -/
theorem claim_C4_counterexample :
    (processFolderM envC4 "R" pagesC4 "bob@x.com" "alice@x.com" 0 0).err =
      some (Err.createFailed "A" "R") ∧
    Cmd.copyItem "b1" "B" "R" ∉
      (processFolderM envC4 "R" pagesC4 "bob@x.com" "alice@x.com" 0 0).trace ∧
    Cmd.copyItem "b1" "B" "R" ∈
      (processFolderM envOk "R" pagesC4 "bob@x.com" "alice@x.com" 0 0).trace := by
  decide

/-- C4 as amended: a failure copying a file is caught inside `copyFile`,
logged with the item name, and never bubbles — the walk proceeds to the next
sibling as if the file had been skipped.  A failure creating a folder,
however, is not caught: it escapes `processEntry` as a fatal error. -/
theorem claim_C4_amended (env : Env) (folderId : String) (target root : String)
    (cnt : Nat) :
    (∀ fileId fileName, (copyFileM env fileId folderId fileName cnt).err = none) ∧
    (∀ fileId fileName, env.copyFails fileId = true →
        (copyFileM env fileId folderId fileName cnt).logs =
          [LogMsg.copyError fileName]) ∧
    (∀ (n : Node) (rest : Items), n.isFolder = false →
        (processItems env folderId (Items.cons n rest) target root cnt).trace =
          (processEntry env folderId n target root cnt).trace ++
          (processItems env folderId rest target root
            (processEntry env folderId n target root cnt).cnt).trace) ∧
    (∀ n : Node, n.isFolder = true → isOwnedByTarget n.owners target = true →
        env.createFails n.name folderId = true →
        (processEntry env folderId n target root cnt).err =
          some (Err.createFailed n.name folderId)) := by
  refine ⟨?_, ?_, ?_, ?_⟩
  · intro fileId fileName
    cases hc : env.copyFails fileId <;> simp [copyFileM, hc]
  · intro fileId fileName hc
    simp [copyFileM, hc]
  · intro n rest hf
    simp only [processItems]
    rw [Res.bind_of_err_none _ _
      (processEntry_file_err env folderId n target root cnt hf)]
  · intro n hf hown hcf
    rw [processEntry_eq_bind]
    have hrepl : (replicateStep env folderId n target root cnt).err =
        some (Err.createFailed n.name folderId) := by
      simp only [Node.isFolder] at hf
      unfold replicateStep
      simp [hown, hf, hcf]
    rw [Res.bind_of_err_some _ _ _ hrepl]
    exact hrepl

theorem claim_C4_amended_witness :
    (copyFileM envCopyFail "b1" "R" "B" 0).err = none ∧
    envCopyFail.copyFails "b1" = true ∧
    (copyFileM envCopyFail "b1" "R" "B" 0).logs = [LogMsg.copyError "B"] ∧
    wFile.isFolder = false ∧
    (processItems envCopyFail "R" (Items.cons wFile Items.nil) "bob@x.com"
        "alice@x.com" 0).trace =
      (processEntry envCopyFail "R" wFile "bob@x.com" "alice@x.com" 0).trace ++
      (processItems envCopyFail "R" Items.nil "bob@x.com" "alice@x.com"
        (processEntry envCopyFail "R" wFile "bob@x.com" "alice@x.com" 0).cnt).trace :=
  ⟨(claim_C4_amended envCopyFail "R" "bob@x.com" "alice@x.com" 0).1 "b1" "B",
    by decide,
    (claim_C4_amended envCopyFail "R" "bob@x.com" "alice@x.com" 0).2.1 "b1" "B"
      (by decide),
    by decide,
    (claim_C4_amended envCopyFail "R" "bob@x.com" "alice@x.com" 0).2.2.1 wFile
      Items.nil (by decide)⟩

/-- C5: pagination discipline.  In a failure-free run where the visited folder
id `fid` does not also name an entry inside its subtree: the walk's list
requests addressed to `fid` are exactly pages `0, 1, …` in order, one request
per page and none once the continuation token is absent; likewise for the
subtree copy's requests for its source folder; and each page's items are fully
processed between that page's request and the next page's request. -/
theorem claim_C5 (env : Env) (hnf : env.NoFail) (fid : String) (pages : Pages)
    (target root : String) (cnt : Nat) (hmem : fid ∉ idsPages pages) :
    ((processFolderM env fid pages target root cnt 0).trace.filter (isListOf fid) =
      (List.range (numPages pages)).map (fun i => Cmd.listChildren fid i)) ∧
    (∀ destId, (copyContents env fid pages destId target root cnt 0).trace.filter
        (isListOf fid) =
      (List.range (numPages pages)).map (fun i => Cmd.listChildren fid i)) ∧
    (∀ (p : Items) (rest : Pages) (idx cnt2 : Nat),
      (processFolderM env fid (Pages.cons p rest) target root cnt2 idx).trace =
        Cmd.listChildren fid idx ::
          ((processItems env fid p target root cnt2).trace ++
          (if rest.isNil then []
           else (processFolderM env fid rest target root
             (processItems env fid p target root cnt2).cnt (idx + 1)).trace))) := by
  refine ⟨?_, ?_, ?_⟩
  · rw [List.range_eq_range']
    have := processFolderM_filter env hnf fid fid pages target root cnt 0 hmem
    simpa using this
  · intro destId
    rw [List.range_eq_range']
    have := copyContents_filter env hnf fid fid pages destId target root cnt 0 hmem
    simpa using this
  · intro p rest idx cnt2
    simp only [processFolderM, hnf.list, Bool.false_eq_true, if_false]
    rw [Res.bind_of_err_none _ _ (processItems_err env hnf fid p target root cnt2)]
    cases hr : rest.isNil <;> simp [hr, Res.done]

theorem claim_C5_witness :
    ("R" ∉ idsPages pagesTwo) ∧
    (processFolderM envOk "R" pagesTwo "bob@x.com" "alice@x.com" 0 0).trace.filter
        (isListOf "R") =
      (List.range (numPages pagesTwo)).map (fun i => Cmd.listChildren "R" i) ∧
    (copyContents envOk "R" pagesTwo "D" "bob@x.com" "alice@x.com" 0 0).trace.filter
        (isListOf "R") =
      (List.range (numPages pagesTwo)).map (fun i => Cmd.listChildren "R" i) :=
  ⟨by decide,
    (claim_C5 envOk envOk_noFail "R" pagesTwo "bob@x.com" "alice@x.com" 0
      (by decide)).1,
    (claim_C5 envOk envOk_noFail "R" pagesTwo "bob@x.com" "alice@x.com" 0
      (by decide)).2.1 "D"⟩

/-- C6: the ownership match is true exactly when some identity in the owner
list equals the target by exact, case-sensitive string equality; an empty
owner list never matches, and no case normalization is applied (a differently
capitalized address does not match). -/
theorem claim_C6 (owners : List String) (target : String) :
    (isOwnedByTarget owners target = true ↔ ∃ o ∈ owners, o = target) ∧
    isOwnedByTarget [] target = false ∧
    isOwnedByTarget ["Bob@x.com"] "bob@x.com" = false := by
  refine ⟨?_, rfl, by decide⟩
  simp [isOwnedByTarget, List.any_eq_true, beq_iff_eq]

/-- C7: when the root folder's owner list comes back empty, the run fails
fatally before any traversal: the only store command ever issued is the owner
fetch itself (no list, create, or copy command on any child), the fatal error
is the missing-owner error, and the only output is the top-level error log. -/
theorem claim_C7 (env : Env) (root : RootFolder) (target : String)
    (howners : root.owners = []) (hget : env.getOwnersFails root.id = false) :
    (mainM env root target).trace = [Cmd.getOwners root.id] ∧
    (mainM env root target).logs = [LogMsg.fatal Err.noRootOwner] ∧
    (mainBody env root target).err = some Err.noRootOwner := by
  unfold mainM mainBody
  simp [hget, howners, Res.bind]

theorem claim_C7_witness :
    rootNoOwner.owners = [] ∧
    envOk.getOwnersFails rootNoOwner.id = false ∧
    (mainM envOk rootNoOwner "bob@x.com").trace = [Cmd.getOwners rootNoOwner.id] ∧
    (mainM envOk rootNoOwner "bob@x.com").logs = [LogMsg.fatal Err.noRootOwner] :=
  ⟨by decide, by decide,
    (claim_C7 envOk rootNoOwner "bob@x.com" (by decide) (by decide)).1,
    (claim_C7 envOk rootNoOwner "bob@x.com" (by decide) (by decide)).2.1⟩

/-- C8: fatal errors propagate to the top-level driver, which reports them:
when the `try` body ends in a fatal error `e`, the run's output is the body's
output followed by the top-level error log for `e`; and the final success
message appears in the run's output exactly when no fatal error occurred. -/
theorem claim_C8 (env : Env) (root : RootFolder) (target : String) :
    (∀ e, (mainBody env root target).err = some e →
      (mainM env root target).logs =
        (mainBody env root target).logs ++ [LogMsg.fatal e]) ∧
    (LogMsg.success ∈ (mainM env root target).logs ↔
      (mainBody env root target).err = none) := by
  constructor
  · intro e he
    simp [mainM, he]
  · rcases mainBody_cases env root target with ⟨hn, hs⟩ | ⟨⟨e, he⟩, hs⟩
    · simp [mainM, hn, hs]
    · simp [mainM, he, hs]

theorem claim_C8_witness :
    (mainBody envListFail rootW "bob@x.com").err = some (Err.listFailed "R" 0) ∧
    (mainM envListFail rootW "bob@x.com").logs =
      (mainBody envListFail rootW "bob@x.com").logs ++
        [LogMsg.fatal (Err.listFailed "R" 0)] ∧
    (LogMsg.success ∈ (mainM envOk rootW "bob@x.com").logs ↔
      (mainBody envOk rootW "bob@x.com").err = none) :=
  ⟨by decide,
    (claim_C8 envListFail rootW "bob@x.com").1 (Err.listFailed "R" 0) (by decide),
    (claim_C8 envOk rootW "bob@x.com").2⟩

/-- C9: the walk, the subtree copy, and the whole run issue only read and
creation commands — never a delete or update — so every pre-existing entry of
the source tree is untouched and the operation is purely additive. -/
theorem claim_C9 (env : Env) (root : RootFolder) (folderId srcId destId : String)
    (pages : Pages) (target rootOwner : String) (cnt idx : Nat) :
    ((processFolderM env folderId pages target rootOwner cnt idx).trace.all
      Cmd.isReadOrCreate = true) ∧
    ((copyContents env srcId pages destId target rootOwner cnt idx).trace.all
      Cmd.isReadOrCreate = true) ∧
    ((mainM env root target).trace.all Cmd.isReadOrCreate = true) :=
  ⟨(processFolderM_frame env folderId pages target rootOwner cnt idx).1,
    (copyContents_frame env srcId pages destId target rootOwner cnt idx).1,
    mainM_frame env root target⟩

/-- C10: the `rootOwnerEmail` argument is inert context: two runs of the walk
(or of the subtree copy) that differ only in it are indistinguishable —
identical command sequences, logs, counter, and outcome. -/
theorem claim_C10 (env : Env) (folderId : String) (pages : Pages)
    (target r1 r2 : String) (cnt idx : Nat) :
    processFolderM env folderId pages target r1 cnt idx =
      processFolderM env folderId pages target r2 cnt idx ∧
    (∀ srcId destId, copyContents env srcId pages destId target r1 cnt idx =
      copyContents env srcId pages destId target r2 cnt idx) :=
  ⟨processFolderM_root env folderId pages target r1 r2 cnt idx,
    fun srcId destId => copyContents_root env srcId pages destId target r1 r2 cnt idx⟩

end DrivePropertyChanger
